import Mathlib

/-!
Shallow embedding, in Lean 4, of the node-mirroring service
(src/formatters.rs, src/worker.rs, src/db.rs, src/main.rs), together with
theorems settling the specification claims about it.

Machine integers of the source (`i64`) are modelled as `Int`; none of the
operations the claims exercise can overflow `i64` on the inputs the claims
quantify over, so no wrap-around is modelled.  Calendar arithmetic follows
the proleptic Gregorian civil-calendar algorithms that the `chrono` crate
implements (days-from-civil / civil-from-days).
-/

namespace LnMirror

/-! ## Calendar helpers (model of the chrono crate's civil-calendar core) -/

/-- Left-pad a decimal string with zeros up to width `n`. -/
def padl (n : Nat) (s : String) : String :=
  String.mk (List.replicate (n - s.length) '0') ++ s

/-- Two-digit zero-padded decimal rendering, as `chrono` prints `%m %d %H %M %S`. -/
def pad2 (k : Nat) : String := padl 2 (toString k)

/-- Proleptic-Gregorian leap-year test. -/
def isLeap (y : Int) : Bool := y % 4 == 0 && (y % 100 != 0 || y % 400 == 0)

/-- Number of days in month `m` (1..12) of year `y`. -/
def daysInMonth (y : Int) (m : Nat) : Nat :=
  match m with
  | 1 => 31 | 2 => if isLeap y then 29 else 28 | 3 => 31 | 4 => 30
  | 5 => 31 | 6 => 30 | 7 => 31 | 8 => 31
  | 9 => 30 | 10 => 31 | 11 => 30 | 12 => 31
  | _ => 0

/-- Days since the Unix epoch of civil date `y-m-d` (Hinnant's algorithm,
the one `chrono` uses for its internal day count). -/
def daysFromCivil (y : Int) (m d : Nat) : Int :=
  let y' : Int := y - (if m ≤ 2 then 1 else 0)
  let era : Int := y'.fdiv 400
  let yoe : Int := y' - era * 400
  let mp : Int := (m : Int) + (if 2 < m then -3 else 9)
  let doy : Int := (153 * mp + 2).fdiv 5 + (d : Int) - 1
  let doe : Int := yoe * 365 + yoe.fdiv 4 - yoe.fdiv 100 + doy
  era * 146097 + doe - 719468

/-- Civil date `(y, m, d)` of a day count since the Unix epoch
(inverse of `daysFromCivil`, Hinnant's algorithm). -/
def civilFromDays (z0 : Int) : Int × Nat × Nat :=
  let z : Int := z0 + 719468
  let era : Int := z.fdiv 146097
  let doe : Int := z - era * 146097
  let yoe : Int := (doe - doe.fdiv 1460 + doe.fdiv 36524 - doe.fdiv 146096).fdiv 365
  let y : Int := yoe + era * 400
  let doy : Int := doe - (365 * yoe + yoe.fdiv 4 - yoe.fdiv 100)
  let mp : Int := (5 * doy + 2).fdiv 153
  let d : Int := doy - (153 * mp + 2).fdiv 5 + 1
  let m : Int := mp + (if mp < 10 then 3 else -9)
  (if m ≤ 2 then y + 1 else y, m.toNat, d.toNat)

/-- Year rendering as `chrono`'s `%Y` does it inside `to_rfc3339`:
four zero-padded digits, with an explicit sign outside `0000`..`9999`. -/
def yearStr (y : Int) : String :=
  if y < 0 then "-" ++ padl 4 (toString (-y).toNat)
  else if 9999 < y then "+" ++ toString y.toNat
  else padl 4 (toString y.toNat)

/-- Smallest epoch-second `chrono` can represent
(`NaiveDate::MIN` = year -262144, Jan 1, at 00:00:00). -/
def tsMin : Int := 86400 * daysFromCivil (-262144) 1 1

/-- Largest epoch-second `chrono` can represent
(`NaiveDate::MAX` = year 262143, Dec 31, at 23:59:59). -/
def tsMax : Int := 86400 * daysFromCivil 262143 12 31 + 86399

/-- `ts` is inside the calendar range `chrono`'s `timestamp_opt(ts, 0)` accepts. -/
def tsInRange (ts : Int) : Prop := tsMin ≤ ts ∧ ts ≤ tsMax

instance (ts : Int) : Decidable (tsInRange ts) := by
  unfold tsInRange; infer_instance

/-- Render the RFC3339 UTC string (seconds precision, `Z` suffix) of the
date-time components, as `to_rfc3339_opts(SecondsFormat::Secs, true)` does. -/
def rfc3339Render (y : Int) (mo d h mi s : Nat) : String :=
  yearStr y ++ "-" ++ pad2 mo ++ "-" ++ pad2 d ++ "T"
    ++ pad2 h ++ ":" ++ pad2 mi ++ ":" ++ pad2 s ++ "Z"

/-- RFC3339 UTC rendering of an in-range epoch second. -/
def rfc3339OfEpoch (ts : Int) : String :=
  let days : Int := ts.fdiv 86400
  let sod : Nat := (ts - 86400 * days).toNat
  let c := civilFromDays days
  rfc3339Render c.1 c.2.1 c.2.2 (sod / 3600) (sod % 3600 / 60) (sod % 60)

/-- `format_timestamp` from src/formatters.rs: `Utc.timestamp_opt(ts, 0).single()`
rendered with `to_rfc3339_opts(SecondsFormat::Secs, true)`, falling back to
`"Invalid Timestamp"` when the epoch second is outside chrono's range. -/
def format_timestamp (ts : Int) : String :=
  if tsInRange ts then rfc3339OfEpoch ts else "Invalid Timestamp"

/-- `format_capacity` from src/formatters.rs: renders `sats / 100_000_000`
with exactly eight fraction digits.  The source computes this through `f64`
(`format!("\x7b:.8\x7d", sats as f64 / 1e8)`); this model renders the exact
decimal expansion, which agrees with the IEEE-754 evaluation whenever that
evaluation is exact at eight fraction digits — in particular on every input
the specification exercises. -/
def format_capacity (sats : Int) : String :=
  (if sats < 0 then "-" else "")
    ++ toString (sats.natAbs / 100000000) ++ "."
    ++ padl 8 (toString (sats.natAbs % 100000000))

/-! ## RFC3339 parsing (model of `chrono::DateTime::parse_from_rfc3339`
followed by `.timestamp()`, as the migration in src/db.rs uses it) -/

/-- Decimal digit value of a character, if it is a digit. -/
def digitVal (c : Char) : Option Nat :=
  if c.isDigit then some (c.toNat - 48) else none

/-- Consume exactly two decimal digits. -/
def take2 : List Char → Option (Nat × List Char)
  | a :: b :: rest => do
    let x ← digitVal a
    let y ← digitVal b
    pure (10 * x + y, rest)
  | _ => none

/-- Consume exactly four decimal digits (the RFC3339 `date-fullyear`). -/
def take4 : List Char → Option (Nat × List Char)
  | a :: b :: c :: d :: rest => do
    let x ← digitVal a
    let y ← digitVal b
    let z ← digitVal c
    let w ← digitVal d
    pure (1000 * x + 100 * y + 10 * z + w, rest)
  | _ => none

/-- Consume one expected character. -/
def expectChar (c : Char) : List Char → Option (List Char)
  | x :: rest => if x = c then some rest else none
  | [] => none

/-- Consume the RFC3339 date/time separator (`chrono` accepts `T`, `t` or space). -/
def expectSep : List Char → Option (List Char)
  | x :: rest => if x = 'T' ∨ x = 't' ∨ x = ' ' then some rest else none
  | [] => none

/-- Consume leading decimal digits, returning how many were consumed. -/
def takeDigits : List Char → Nat × List Char
  | c :: rest =>
    if c.isDigit then
      let r := takeDigits rest
      (r.1 + 1, r.2)
    else (0, c :: rest)
  | [] => (0, [])

/-- Consume an optional fractional-seconds part `.d+` (digits required after
the point); the fraction does not contribute to `.timestamp()`. -/
def skipFrac : List Char → Option (List Char)
  | '.' :: rest =>
    let r := takeDigits rest
    if r.1 = 0 then none else some r.2
  | cs => some cs

/-- Consume the trailing numeric offset `±hh:mm` and end of input,
returning the offset in seconds. -/
def parseNumOffset (sign : Int) (cs : List Char) : Option Int := do
  let (h, cs) ← take2 cs
  let cs ← expectChar ':' cs
  let (m, cs) ← take2 cs
  guard (cs = [])
  guard (h ≤ 23 ∧ m ≤ 59)
  pure (sign * (3600 * (h : Int) + 60 * m))

/-- Consume the RFC3339 offset: `Z`/`z` or `±hh:mm`, then end of input. -/
def parseOffset : List Char → Option Int
  | ['Z'] => some 0
  | ['z'] => some 0
  | '+' :: cs => parseNumOffset 1 cs
  | '-' :: cs => parseNumOffset (-1) cs
  | _ => none

/-- `DateTime::parse_from_rfc3339(s).map(|dt| dt.timestamp())`:
parse `YYYY-MM-DDThh:mm:ss[.frac](Z|±hh:mm)` and return epoch seconds.
A leap-second `60` is carried by the previous second, as `chrono` does. -/
def parseRFC3339 (s : String) : Option Int := do
  let cs := s.data
  let (y, cs) ← take4 cs
  let cs ← expectChar '-' cs
  let (mo, cs) ← take2 cs
  let cs ← expectChar '-' cs
  let (d, cs) ← take2 cs
  let cs ← expectSep cs
  let (h, cs) ← take2 cs
  let cs ← expectChar ':' cs
  let (mi, cs) ← take2 cs
  let cs ← expectChar ':' cs
  let (sec, cs) ← take2 cs
  let cs ← skipFrac cs
  let off ← parseOffset cs
  guard (1 ≤ mo ∧ mo ≤ 12)
  guard (1 ≤ d ∧ d ≤ daysInMonth y mo)
  guard (h ≤ 23 ∧ mi ≤ 59 ∧ sec ≤ 60)
  let sec' := if sec = 60 then 59 else sec
  pure (86400 * daysFromCivil (y : Int) mo d + 3600 * h + 60 * mi + sec' - off)

/-! ## Record upsert engine (`store_nodes` from src/worker.rs)

The `nodes` SQLite table is modelled as a list of rows; `INSERT OR IGNORE`
appends a row when no row carries the key, and the guarded `UPDATE` rewrites
exactly the rows matching its `WHERE` clause. -/

/-- A node record, as fetched from the API and as stored in the `nodes`
table (src/worker.rs `struct Node`). -/
structure Node where
  public_key : String
  «alias» : String
  capacity : Int
  first_seen : Int
  deriving DecidableEq, Repr

/-- `key ∈` the table: some row carries this public key. -/
def hasKey (store : List Node) (key : String) : Bool :=
  store.any (fun r => r.public_key == key)

/-- One execution of
`INSERT OR IGNORE INTO nodes (public_key, alias, capacity, first_seen) VALUES (?1,?2,?3,?4)`:
returns the new table and the changed-row count (0 or 1). -/
def insertOrIgnore (store : List Node) (n : Node) : List Node × Nat :=
  if hasKey store n.public_key then (store, 0) else (store ++ [n], 1)

/-- First loop of `store_nodes`: run `insertOrIgnore` over the batch in
order, summing `inserted_count`. -/
def insertPhase : List Node → List Node → List Node × Nat
  | store, [] => (store, 0)
  | store, n :: rest =>
    let s := insertOrIgnore store n
    let r := insertPhase s.1 rest
    (r.1, s.2 + r.2)

/-- The `WHERE` clause of the guarded update:
`public_key = ?1 AND (alias != ?2 OR capacity != ?3)`. -/
def updHits (n : Node) (r : Node) : Bool :=
  r.public_key == n.public_key && (r.«alias» != n.«alias» || r.capacity != n.capacity)

/-- Effect of the `UPDATE ... SET alias = ?2, capacity = ?3` on one row. -/
def updRow (n : Node) (r : Node) : Node :=
  if updHits n r then { r with «alias» := n.«alias», capacity := n.capacity } else r

/-- One execution of
`UPDATE nodes SET alias = ?2, capacity = ?3 WHERE public_key = ?1 AND (alias != ?2 OR capacity != ?3)`:
returns the new table and the changed-row count. -/
def updateIfChanged (store : List Node) (n : Node) : List Node × Nat :=
  (store.map (updRow n), store.countP (updHits n))

/-- Second loop of `store_nodes`: run `updateIfChanged` over the batch in
order, summing `updated_count`. -/
def updatePhase : List Node → List Node → List Node × Nat
  | store, [] => (store, 0)
  | store, n :: rest =>
    let s := updateIfChanged store n
    let r := updatePhase s.1 rest
    (r.1, s.2 + r.2)

/-- `store_nodes` from src/worker.rs: one transaction that first
insert-or-ignores every batch record, then applies the guarded update for
every batch record; returns `(table, inserted_count, updated_count)`. -/
def store_nodes (store : List Node) (batch : List Node) : List Node × Nat × Nat :=
  let ins := insertPhase store batch
  let upd := updatePhase ins.1 batch
  (upd.1, ins.2, upd.2)

/-- Cumulative effect of the whole update loop on a single row: because
each `UPDATE` rewrites rows pointwise, `updatePhase` acts on the table as
the map of this per-row function (proved below as `updatePhase_fst`). -/
def applyBatch (batch : List Node) (r : Node) : Node :=
  batch.foldl (fun acc n => updRow n acc) r

/-! ## Schema migration (`run_migration` from src/db.rs), value level

The legacy table stored `first_seen` as text; the migration copies each row
into a fresh table, converting the text through `parse_from_rfc3339` with a
default of 0, inserting with `INSERT OR IGNORE` on the new primary key. -/

/-- A row of the legacy `nodes` table (src/db.rs `struct OldNode`). -/
structure OldNode where
  public_key : String
  «alias» : String
  capacity : Int
  first_seen : String
  deriving DecidableEq, Repr

/-- Conversion of one legacy row: parse the textual timestamp as RFC3339,
defaulting to 0 on failure (src/db.rs, the copy loop body). -/
def migrateRow (o : OldNode) : Node :=
  { public_key := o.public_key
    «alias» := o.«alias»
    capacity := o.capacity
    first_seen := (parseRFC3339 o.first_seen).getD 0 }

/-- The data transformation `run_migration` performs when it succeeds: fold
the converted legacy rows into an initially empty new table through
`INSERT OR IGNORE`. -/
def run_migration (old : List OldNode) : List Node :=
  (insertPhase [] (old.map migrateRow)).1

/-! ## Schema migration, transactional step machine

`run_migration` executes inside one `rusqlite` transaction: every statement
runs against the uncommitted working state, the final `commit` publishes it,
and an error at any earlier point rolls the whole transaction back.  The
machine below replays the exact statement sequence of src/db.rs —
rename, create, one copy step per legacy row, drop — against an explicit
database state, so that a failure injected before the commit can be shown to
leave the committed state untouched. -/

/-- A dynamically typed SQLite cell, as `first_seen` needs both shapes. -/
inductive SqlValue where
  | text (s : String)
  | int (n : Int)
  deriving DecidableEq, Repr

/-- A row of a `nodes`-shaped table, with the dynamically typed
`first_seen` cell. -/
structure SqlRow where
  public_key : String
  «alias» : String
  capacity : Int
  first_seen : SqlValue
  deriving DecidableEq, Repr

/-- A database state: an association of table names to row lists. -/
abbrev DbState := List (String × List SqlRow)

/-- Look a table up by name. -/
def getTable (db : DbState) (name : String) : Option (List SqlRow) :=
  (db.find? (fun t => t.1 == name)).map (·.2)

/-- Replace (or add) a table. -/
def putTable (db : DbState) (name : String) (rows : List SqlRow) : DbState :=
  (name, rows) :: db.filter (fun t => t.1 != name)

/-- Drop a table. -/
def dropTable (db : DbState) (name : String) : DbState :=
  db.filter (fun t => t.1 != name)

/-- One SQL statement of the migration, as src/db.rs issues them. -/
inductive MigStep where
  /-- `ALTER TABLE nodes RENAME TO nodes_old_migration_temp` -/
  | rename
  /-- `CREATE TABLE nodes (...)` with the integer schema -/
  | create
  /-- Read row `i` of the temporary table, convert its timestamp, and
  `INSERT OR IGNORE` it into the new table -/
  | copyRow (i : Nat)
  /-- `DROP TABLE nodes_old_migration_temp` -/
  | drop

/-- `INSERT OR IGNORE` on the `public_key` primary key of a `SqlRow` table. -/
def sqlInsertOrIgnore (rows : List SqlRow) (r : SqlRow) : List SqlRow :=
  if rows.any (fun x => x.public_key == r.public_key) then rows else rows ++ [r]

/-- Execute one migration statement against the (uncommitted) working
state; `Except.error` models a failed statement. -/
def runStep (db : DbState) : MigStep → Except Unit DbState
  | .rename =>
    match getTable db "nodes" with
    | some rows => .ok (putTable (dropTable db "nodes") "nodes_old_migration_temp" rows)
    | none => .error ()
  | .create =>
    match getTable db "nodes" with
    | some _ => .error ()
    | none => .ok (putTable db "nodes" [])
  | .copyRow i =>
    match getTable db "nodes_old_migration_temp", getTable db "nodes" with
    | some old, some newRows =>
      match old[i]? with
      | some r =>
        match r.first_seen with
        | .text s =>
          let ts := (parseRFC3339 s).getD 0
          .ok (putTable db "nodes"
                (sqlInsertOrIgnore newRows
                  { public_key := r.public_key, «alias» := r.«alias»,
                    capacity := r.capacity, first_seen := .int ts }))
        | .int _ => .error ()
      | none => .error ()
    | _, _ => .error ()
  | .drop =>
    match getTable db "nodes_old_migration_temp" with
    | some _ => .ok (dropTable db "nodes_old_migration_temp")
    | none => .error ()

/-- Run a statement sequence inside the transaction's working state. -/
def runSteps (db : DbState) : List MigStep → Except Unit DbState
  | [] => .ok db
  | s :: rest =>
    match runStep db s with
    | .ok db' => runSteps db' rest
    | .error e => .error e

/-- The statement sequence `run_migration` issues for a legacy table of
`n` rows, in source order. -/
def migrationSteps (n : Nat) : List MigStep :=
  .rename :: .create :: (List.range n).map .copyRow ++ [.drop]

/-- The transaction wrapper: run the statements on the working copy; commit
the result on success, roll back — leaving the committed state as it was —
on any error. -/
def withTx (committed : DbState) (steps : List MigStep) : DbState :=
  match runSteps committed steps with
  | .ok db' => db'
  | .error _ => committed

/-- A committed state holding one legacy `nodes` table. -/
def legacyDb (rows : List SqlRow) : DbState := [("nodes", rows)]

/-- Run a statement sequence with a fault injected at position `k`: the
first `k` statements execute normally (stopping early if one of them fails
on its own) and, if any statement remains, the next one fails.  With
`k ≥ steps.length` this is exactly `runSteps`. -/
def runStepsFailAfter (db : DbState) : List MigStep → Nat → Except Unit DbState
  | [], _ => .ok db
  | _ :: _, 0 => .error ()
  | s :: rest, k + 1 =>
    match runStep db s with
    | .ok db' => runStepsFailAfter db' rest k
    | .error e => .error e

/-- The transaction wrapper around the faulted run: commit on success, roll
back — leaving the committed state as it was — on any error. -/
def withTxFailAfter (committed : DbState) (steps : List MigStep) (k : Nat) : DbState :=
  match runStepsFailAfter committed steps k with
  | .ok db' => db'
  | .error _ => committed

/-- `run_migration` on a legacy table, with the `(k+1)`-th statement of the
migration failing: the committed database state after the transaction. -/
def migrateFailingAt (rows : List SqlRow) (k : Nat) : DbState :=
  withTxFailAfter (legacyDb rows) (migrationSteps rows.length) k

/-! ## Sync worker retry loop (`spawn_worker` from src/worker.rs)

One tick's inner loop: attempt fetch+parse+store; on success break; on
failure bump the attempt counter, break once it reaches `max_attempts`,
otherwise sleep `backoff` seconds and double it.  `outcome k` tells whether
the `k`-th attempt (fetch, decode and store all together) succeeds. -/

/-- Observable behaviour of one tick's retry loop: how many attempts ran,
which sleeps happened between them, and whether the batch got stored. -/
structure CycleTrace where
  attemptsMade : Nat
  sleeps : List Nat
  succeeded : Bool
  deriving DecidableEq, Repr

/-- The inner `loop` of `spawn_worker`, parameterised over the per-attempt
outcome; `attempts` and `backoff` are the mutable locals of the source. -/
def retryLoop (maxAttempts : Nat) (outcome : Nat → Bool)
    (attempts backoff : Nat) (sleeps : List Nat) : CycleTrace :=
  if outcome attempts then
    { attemptsMade := attempts + 1, sleeps := sleeps.reverse, succeeded := true }
  else if maxAttempts ≤ attempts + 1 then
    { attemptsMade := attempts + 1, sleeps := sleeps.reverse, succeeded := false }
  else
    retryLoop maxAttempts outcome (attempts + 1) (backoff * 2) (backoff :: sleeps)
termination_by maxAttempts - attempts
decreasing_by omega

/-- One full tick cycle: `attempts = 0`, `max_attempts = 3`, `backoff = 1`,
exactly the constants of src/worker.rs. -/
def runTick (outcome : Nat → Bool) : CycleTrace :=
  retryLoop 3 outcome 0 1 []

/-- The worker's outer loop over a (finite prefix of the) tick sequence:
every tick runs its cycle to completion and the loop moves on — the
worker task never terminates the process. -/
def workerRun (ticks : List (Nat → Bool)) : List CycleTrace :=
  ticks.map runTick

/-! ## Read path (`get_nodes` from src/main.rs) with the single-key cache -/

/-- A row as read back from the database (src/models.rs `NodeFromDb`). -/
structure NodeFromDb where
  public_key : String
  «alias» : String
  capacity : Int
  first_seen : Int
  deriving DecidableEq, Repr

/-- A formatted API record (src/models.rs `NodeResponse`). -/
structure NodeResponse where
  public_key : String
  «alias» : String
  capacity : String
  first_seen : String
  deriving DecidableEq, Repr

/-- Formatting of one row for the response (the loop body in `get_nodes`). -/
def toResponse (r : NodeFromDb) : NodeResponse :=
  { public_key := r.public_key
    «alias» := r.«alias»
    capacity := format_capacity r.capacity
    first_seen := format_timestamp r.first_seen }

/-- `SELECT ... FROM nodes ORDER BY capacity DESC`: the table's rows sorted
by descending capacity (SQLite leaves the order of equal capacities
unspecified; a stable sort is one faithful refinement). -/
def scanDesc (rows : List NodeFromDb) : List NodeFromDb :=
  rows.insertionSort (fun a b => b.capacity ≤ a.capacity)

/-- The moka cache holding at most the one `"nodes"` entry: the cached
value with its insertion instant, or nothing. -/
abbrev CacheState := Option (List NodeResponse × Nat)

/-- `cache.get("nodes")` at instant `now` under time-to-live `ttl`: the
entry is served while younger than `ttl`, gone once it has expired. -/
def cacheGet (c : CacheState) (now ttl : Nat) : Option (List NodeResponse) :=
  match c with
  | some (v, insertedAt) => if now < insertedAt + ttl then some v else none
  | none => none

/-- Outcome of the handler: the HTTP body, either the JSON list (status
200) or the plain-text error (status 500). -/
inductive ApiResult where
  | ok (nodes : List NodeResponse)
  | err (msg : String)
  deriving DecidableEq, Repr

/-- HTTP status of a handler outcome. -/
def statusOf : ApiResult → Nat
  | .ok _ => 200
  | .err _ => 500

/-- The `GET /nodes` handler (src/main.rs `get_nodes`): serve the cache
entry when one is live; otherwise run the blocking scan — `query` is the
scan's outcome, `Except.error` a rusqlite failure — format it, insert the
result into the cache, and return it; on scan failure return the 500 body
and touch nothing. -/
def get_nodes (cache : CacheState) (now ttl : Nat)
    (query : Except Unit (List NodeFromDb)) : ApiResult × CacheState :=
  match cacheGet cache now ttl with
  | some v => (.ok v, cache)
  | none =>
    match query with
    | .ok rows =>
      let nodes := (scanDesc rows).map toResponse
      (.ok nodes, some (nodes, now))
    | .error _ => (.err "Error fetching nodes from database", cache)

/-! ## Supporting lemmas -/

/-- A rendered RFC3339 string is some prefix followed by the `Z` suffix. -/
theorem rfc3339Render_z (y : Int) (mo d h mi s : Nat) :
    ∃ p, rfc3339Render y mo d h mi s = p ++ "Z" :=
  ⟨yearStr y ++ "-" ++ pad2 mo ++ "-" ++ pad2 d ++ "T"
    ++ pad2 h ++ ":" ++ pad2 mi ++ ":" ++ pad2 s, rfl⟩

/-- The second-of-day extracted by `rfc3339OfEpoch` is below 86400. -/
theorem secondOfDay_lt (ts : Int) : (ts - 86400 * ts.fdiv 86400).toNat < 86400 := by
  have h1 : ts.fmod 86400 = ts - 86400 * ts.fdiv 86400 := Int.fmod_def ts 86400
  have h2 : 0 ≤ ts.fmod 86400 := by
    rw [Int.fmod_eq_emod _ (by norm_num)]
    exact Int.emod_nonneg ts (by norm_num)
  have h3 : ts.fmod 86400 < 86400 := Int.fmod_lt_of_pos ts (by norm_num)
  omega

/-! ## Claim theorems -/

/-- C8: the formatting helpers produce the exact spec-listed outputs:
`format_capacity 150000000 = "1.50000000"`, `format_capacity 1 = "0.00000001"`,
and `format_timestamp 1700000000 = "2023-11-14T22:13:20Z"`. -/
theorem formatters_exact_values :
    format_capacity 150000000 = "1.50000000" ∧
    format_capacity 1 = "0.00000001" ∧
    format_timestamp 1700000000 = "2023-11-14T22:13:20Z" := by
  refine ⟨by decide, by decide, by decide⟩

/-- C9: `format_timestamp` is total: on every epoch second inside chrono's
representable calendar range it returns a rendered RFC3339 UTC string at
seconds precision (hour, minute, second components in range) ending in `Z`,
and on every epoch second outside that range it returns exactly
`"Invalid Timestamp"`. -/
theorem format_timestamp_total (ts : Int) :
    (tsInRange ts →
      ∃ y mo d h mi s, format_timestamp ts = rfc3339Render y mo d h mi s ∧
        h < 24 ∧ mi < 60 ∧ s < 60 ∧ ∃ p, format_timestamp ts = p ++ "Z") ∧
    (¬ tsInRange ts → format_timestamp ts = "Invalid Timestamp") := by
  constructor
  · intro h
    have hts : format_timestamp ts = rfc3339OfEpoch ts := if_pos h
    have hsod := secondOfDay_lt ts
    refine ⟨(civilFromDays (ts.fdiv 86400)).1, (civilFromDays (ts.fdiv 86400)).2.1,
      (civilFromDays (ts.fdiv 86400)).2.2,
      (ts - 86400 * ts.fdiv 86400).toNat / 3600,
      (ts - 86400 * ts.fdiv 86400).toNat % 3600 / 60,
      (ts - 86400 * ts.fdiv 86400).toNat % 60, ?_, ?_, ?_, ?_, ?_⟩
    · rw [hts]; rfl
    · omega
    · omega
    · omega
    · rw [hts]
      exact rfc3339Render_z _ _ _ _ _ _
  · intro h
    exact if_neg h

/-- C9 witness: the two branches at the concrete epoch seconds 1700000000
(inside the range) and 8210298412800 (one past `tsMax`). -/
theorem format_timestamp_total_witness :
    tsInRange 1700000000 ∧
    (∃ y mo d h mi s, format_timestamp 1700000000 = rfc3339Render y mo d h mi s ∧
      h < 24 ∧ mi < 60 ∧ s < 60 ∧ ∃ p, format_timestamp 1700000000 = p ++ "Z") ∧
    ¬ tsInRange 8210298412800 ∧
    format_timestamp 8210298412800 = "Invalid Timestamp" :=
  ⟨by decide, (format_timestamp_total 1700000000).1 (by decide),
   by decide, (format_timestamp_total 8210298412800).2 (by decide)⟩

/-- C4: under sustained fetch/decode/store failure one tick cycle makes
exactly 3 attempts (the source's `max_attempts`), sleeping between
consecutive attempts for strictly doubling delays 1 and 2 from the base of
1, then stops retrying without success; the outer loop still processes
every subsequent tick, so the worker never terminates the process. -/
theorem worker_retry_bounded (outcome : Nat → Bool) (hfail : ∀ k, outcome k = false) :
    runTick outcome = ⟨3, [1, 2], false⟩ ∧
    (∀ rest, workerRun (outcome :: rest) = ⟨3, [1, 2], false⟩ :: workerRun rest) ∧
    (∀ ticks, (workerRun ticks).length = ticks.length) := by
  have h1 : runTick outcome = ⟨3, [1, 2], false⟩ := by
    unfold runTick
    rw [retryLoop, hfail]
    simp only [if_neg (by omega : ¬ (3 ≤ 0 + 1))]
    rw [retryLoop, hfail]
    simp only [if_neg (by omega : ¬ (3 ≤ 1 + 1))]
    rw [retryLoop, hfail]
    simp
  refine ⟨h1, ?_, ?_⟩
  · intro rest
    simp [workerRun, h1]
  · intro ticks
    simp [workerRun]

/-- C4 witness: the always-failing outcome function. -/
theorem worker_retry_bounded_witness :
    (∀ k, (fun _ : Nat => false) k = false) ∧
    runTick (fun _ => false) = ⟨3, [1, 2], false⟩ :=
  ⟨fun _ => rfl, (worker_retry_bounded (fun _ => false) (fun _ => rfl)).1⟩

/-- C10: when the cache misses and the store scan fails, `get_nodes`
returns the 500 plain-text error body and leaves the cache unchanged, so
the miss persists at every later instant and the next read hits the store
again instead of a cached error. -/
theorem scan_failure_not_cached (cache : CacheState) (now ttl : Nat)
    (hmiss : cacheGet cache now ttl = none) :
    get_nodes cache now ttl (.error ()) = (.err "Error fetching nodes from database", cache) ∧
    statusOf (get_nodes cache now ttl (.error ())).1 = 500 ∧
    ∀ later, now ≤ later → cacheGet cache later ttl = none := by
  have h1 : get_nodes cache now ttl (.error ())
      = (.err "Error fetching nodes from database", cache) := by
    unfold get_nodes
    rw [hmiss]
  refine ⟨h1, by rw [h1]; rfl, ?_⟩
  intro later hle
  match cache with
  | none => rfl
  | some (v, t0) =>
    simp only [cacheGet] at hmiss ⊢
    by_cases hc : now < t0 + ttl
    · simp [hc] at hmiss
    · rw [if_neg (by omega)]

/-- C10 witness: an expired entry at instant 12 with TTL 10, scan failing. -/
theorem scan_failure_not_cached_witness :
    cacheGet (some ([], 0)) 12 10 = none ∧
    get_nodes (some ([], 0)) 12 10 (.error ())
      = (.err "Error fetching nodes from database", some ([], 0)) :=
  ⟨by decide, (scan_failure_not_cached (some ([], 0)) 12 10 (by decide)).1⟩

/-- The descending-capacity scan is sorted: consecutive capacities never
increase. -/
theorem scanDesc_sorted (rows : List NodeFromDb) :
    (scanDesc rows).Pairwise (fun a b => b.capacity ≤ a.capacity) := by
  haveI : IsTotal NodeFromDb (fun a b => b.capacity ≤ a.capacity) :=
    ⟨fun a b => le_total b.capacity a.capacity⟩
  haveI : IsTrans NodeFromDb (fun a b => b.capacity ≤ a.capacity) :=
    ⟨fun _ _ _ hab hbc => le_trans hbc hab⟩
  exact List.sorted_insertionSort _ rows

/-- C5: on a cache miss `get_nodes` formats the store's rows in descending
capacity order — the scanned sequence is a permutation of the table, sorted
by capacity — caches exactly the returned sequence, answers 200, and on an
empty store returns the empty sequence. -/
theorem cache_miss_scans_store (cache : CacheState) (now ttl : Nat)
    (rows : List NodeFromDb) (hmiss : cacheGet cache now ttl = none) :
    get_nodes cache now ttl (.ok rows)
      = (.ok ((scanDesc rows).map toResponse),
         some ((scanDesc rows).map toResponse, now)) ∧
    (scanDesc rows).Perm rows ∧
    (scanDesc rows).Pairwise (fun a b => b.capacity ≤ a.capacity) ∧
    statusOf (get_nodes cache now ttl (.ok rows)).1 = 200 ∧
    get_nodes cache now ttl (.ok []) = (.ok [], some ([], now)) := by
  have h1 : get_nodes cache now ttl (.ok rows)
      = (.ok ((scanDesc rows).map toResponse),
         some ((scanDesc rows).map toResponse, now)) := by
    unfold get_nodes
    rw [hmiss]
  have hempty : get_nodes cache now ttl (.ok [])
      = (.ok [], some ([], now)) := by
    unfold get_nodes
    rw [hmiss]
    rfl
  exact ⟨h1, List.perm_insertionSort _ rows, scanDesc_sorted rows, by rw [h1]; rfl, hempty⟩

/-- C5 witness: a two-row store served on a cold cache. -/
theorem cache_miss_scans_store_witness :
    cacheGet none 0 10 = none ∧
    get_nodes none 0 10 (.ok [⟨"a", "A", 150000000, 1700000000⟩, ⟨"b", "B", 300000000, 0⟩])
      = (.ok [⟨"b", "B", "3.00000000", "1970-01-01T00:00:00Z"⟩,
              ⟨"a", "A", "1.50000000", "2023-11-14T22:13:20Z"⟩],
         some ([⟨"b", "B", "3.00000000", "1970-01-01T00:00:00Z"⟩,
                ⟨"a", "A", "1.50000000", "2023-11-14T22:13:20Z"⟩], 0)) := by
  refine ⟨rfl, ?_⟩
  have h := (cache_miss_scans_store none 0 10
    [⟨"a", "A", 150000000, 1700000000⟩, ⟨"b", "B", 300000000, 0⟩] rfl).1
  rw [h]
  decide

/-- C6: while the single cache entry is unexpired, `get_nodes` returns
exactly the cached sequence and leaves the cache untouched, whatever the
store holds (it performs no store access, so two reads inside the TTL
window agree even across store changes); once the entry has expired, a read
recomputes the response from the current store state. -/
theorem cache_hit_semantics (v : List NodeResponse) (t0 ttl : Nat) :
    (∀ now, now < t0 + ttl → ∀ query,
      get_nodes (some (v, t0)) now ttl query = (.ok v, some (v, t0))) ∧
    (∀ now1 now2 q1 q2, now1 < t0 + ttl → now2 < t0 + ttl →
      (get_nodes (some (v, t0)) now1 ttl q1).1
        = (get_nodes (some (v, t0)) now2 ttl q2).1) ∧
    (∀ now rows, t0 + ttl ≤ now →
      get_nodes (some (v, t0)) now ttl (.ok rows)
        = (.ok ((scanDesc rows).map toResponse),
           some ((scanDesc rows).map toResponse, now))) := by
  have hit : ∀ now, now < t0 + ttl → ∀ query,
      get_nodes (some (v, t0)) now ttl query = (.ok v, some (v, t0)) := by
    intro now hlt query
    have hc : cacheGet (some (v, t0)) now ttl = some v := by
      show (if now < t0 + ttl then some v else none) = some v
      rw [if_pos hlt]
    unfold get_nodes
    rw [hc]
  refine ⟨hit, ?_, ?_⟩
  · intro now1 now2 q1 q2 h1 h2
    rw [hit now1 h1 q1, hit now2 h2 q2]
  · intro now rows hexp
    have hc : cacheGet (some (v, t0)) now ttl = none := by
      show (if now < t0 + ttl then some v else none) = none
      rw [if_neg (by omega)]
    unfold get_nodes
    rw [hc]

/-- C6 witness: TTL 10, entry inserted at 0; a hit at instant 5 against a
failing store, agreement of two in-window reads against different stores,
and the recomputation at instant 10 against a one-row store. -/
theorem cache_hit_semantics_witness :
    (5 < 0 + 10 ∧
      get_nodes (some ([], 0)) 5 10 (.error ()) = (.ok [], some ([], 0))) ∧
    (get_nodes (some ([], 0)) 3 10 (.error ())).1
      = (get_nodes (some ([], 0)) 7 10 (.ok [⟨"a", "A", 1, 0⟩])).1 ∧
    (0 + 10 ≤ 10 ∧
      get_nodes (some ([], 0)) 10 10 (.ok [⟨"a", "A", 1, 0⟩])
        = (.ok [⟨"a", "A", "0.00000001", "1970-01-01T00:00:00Z"⟩],
           some ([⟨"a", "A", "0.00000001", "1970-01-01T00:00:00Z"⟩], 10))) := by
  refine ⟨⟨by omega, (cache_hit_semantics [] 0 10).1 5 (by omega) _⟩, ?_, ?_⟩
  · exact (cache_hit_semantics [] 0 10).2.1 3 7 _ _ (by omega) (by omega)
  · refine ⟨by omega, ?_⟩
    have h := (cache_hit_semantics [] 0 10).2.2 10 [⟨"a", "A", 1, 0⟩] (by omega)
    rw [h]
    decide

/-! ### Upsert-engine lemmas -/

/-- The guarded update never rewrites `public_key`. -/
theorem updRow_public_key (n r : Node) : (updRow n r).public_key = r.public_key := by
  unfold updRow
  split <;> rfl

/-- The guarded update never rewrites `first_seen`. -/
theorem updRow_first_seen (n r : Node) : (updRow n r).first_seen = r.first_seen := by
  unfold updRow
  split <;> rfl

/-- A row with a different key is untouched by the guarded update. -/
theorem updRow_of_ne {n r : Node} (h : r.public_key ≠ n.public_key) : updRow n r = r := by
  simp [updRow, updHits, h]

/-- The whole update loop never rewrites `public_key`. -/
theorem applyBatch_public_key (batch : List Node) (r : Node) :
    (applyBatch batch r).public_key = r.public_key := by
  induction batch generalizing r with
  | nil => rfl
  | cons n rest ih => exact (ih (updRow n r)).trans (updRow_public_key n r)

/-- The whole update loop never rewrites `first_seen`. -/
theorem applyBatch_first_seen (batch : List Node) (r : Node) :
    (applyBatch batch r).first_seen = r.first_seen := by
  induction batch generalizing r with
  | nil => rfl
  | cons n rest ih => exact (ih (updRow n r)).trans (updRow_first_seen n r)

/-- A row whose key no batch record carries is untouched by the update loop. -/
theorem applyBatch_of_not_mem {batch : List Node} {r : Node}
    (h : ∀ n ∈ batch, n.public_key ≠ r.public_key) : applyBatch batch r = r := by
  induction batch with
  | nil => rfl
  | cons n rest ih =>
    have h1 : updRow n r = r :=
      updRow_of_ne (fun he => h n (List.mem_cons_self n rest) he.symm)
    show applyBatch rest (updRow n r) = r
    rw [h1]
    exact ih (fun m hm => h m (List.mem_cons_of_mem n hm))

/-- After the update loop of a batch with pairwise-distinct keys, every row
matching a batch record's key carries that record's alias and capacity. -/
theorem applyBatch_sets {batch : List Node}
    (hnd : (batch.map (fun x => x.public_key)).Nodup)
    {n : Node} (hn : n ∈ batch) {r : Node} (hpk : r.public_key = n.public_key) :
    (applyBatch batch r).«alias» = n.«alias» ∧ (applyBatch batch r).capacity = n.capacity := by
  induction batch generalizing r with
  | nil => cases hn
  | cons m rest ih =>
    rw [List.map_cons, List.nodup_cons] at hnd
    obtain ⟨hm, hrest⟩ := hnd
    rcases List.mem_cons.mp hn with rfl | hn'
    · have hfields : (updRow n r).«alias» = n.«alias» ∧ (updRow n r).capacity = n.capacity := by
        by_cases hh : updHits n r = true
        · simp [updRow, hh]
        · have hr : updRow n r = r := by simp [updRow, hh]
          rw [hr]
          simpa [updHits, hpk] using hh
      have hrest' : applyBatch rest (updRow n r) = updRow n r := by
        apply applyBatch_of_not_mem
        intro x hx he
        rw [updRow_public_key, hpk] at he
        exact hm (he ▸ List.mem_map_of_mem (fun y => y.public_key) hx)
      show (applyBatch rest (updRow n r)).«alias» = _ ∧ (applyBatch rest (updRow n r)).capacity = _
      rw [hrest']
      exact hfields
    · have hne : r.public_key ≠ m.public_key := by
        rw [hpk]
        intro he
        exact hm (he ▸ List.mem_map_of_mem (fun y => y.public_key) hn')
      show (applyBatch rest (updRow m r)).«alias» = _ ∧ (applyBatch rest (updRow m r)).capacity = _
      rw [updRow_of_ne hne]
      exact ih hrest hn' hpk

/-- The insert loop only appends rows, and every appended row is a batch
record. -/
theorem insertPhase_split (batch : List Node) :
    ∀ store, ∃ extra, (insertPhase store batch).1 = store ++ extra ∧
      ∀ r ∈ extra, r ∈ batch := by
  induction batch with
  | nil => exact fun store => ⟨[], by simp [insertPhase], by simp⟩
  | cons n rest ih =>
    intro store
    by_cases hk : hasKey store n.public_key = true
    · obtain ⟨extra, he, hmem⟩ := ih store
      refine ⟨extra, ?_, fun r hr => List.mem_cons_of_mem n (hmem r hr)⟩
      show (insertPhase (insertOrIgnore store n).1 rest).1 = store ++ extra
      rw [show insertOrIgnore store n = (store, 0) from by simp [insertOrIgnore, hk]]
      exact he
    · obtain ⟨extra, he, hmem⟩ := ih (store ++ [n])
      refine ⟨n :: extra, ?_, ?_⟩
      · show (insertPhase (insertOrIgnore store n).1 rest).1 = store ++ n :: extra
        rw [show insertOrIgnore store n = (store ++ [n], 1) from by simp [insertOrIgnore, hk]]
        rw [he, List.append_assoc]
        rfl
      · intro r hr
        rcases List.mem_cons.mp hr with rfl | hr'
        · exact List.mem_cons_self r rest
        · exact List.mem_cons_of_mem n (hmem r hr')

/-- Keys present before the insert loop are still present after it. -/
theorem insertPhase_hasKey_mono (batch : List Node) (store : List Node) (k : String)
    (h : hasKey store k = true) : hasKey (insertPhase store batch).1 k = true := by
  obtain ⟨extra, he, -⟩ := insertPhase_split batch store
  rw [he]
  simp only [hasKey, List.any_append] at h ⊢
  rw [h]
  rfl

/-- After the insert loop, every batch record's key is present. -/
theorem insertPhase_hasKey (batch : List Node) :
    ∀ store, ∀ n ∈ batch, hasKey (insertPhase store batch).1 n.public_key = true := by
  induction batch with
  | nil => intro _ n hn; cases hn
  | cons m rest ih =>
    intro store n hn
    rcases List.mem_cons.mp hn with rfl | hn'
    · have hk1 : hasKey (insertOrIgnore store n).1 n.public_key = true := by
        by_cases hk : hasKey store n.public_key = true
        · simp [insertOrIgnore, hk]
        · rw [show insertOrIgnore store n = (store ++ [n], 1) from by
            simp [insertOrIgnore, hk]]
          simp [hasKey]
      exact insertPhase_hasKey_mono rest _ _ hk1
    · exact ih (insertOrIgnore store m).1 n hn'

/-- When every batch key is already present, the insert loop is a no-op
with `inserted_count = 0`. -/
theorem insertPhase_noop (store batch : List Node)
    (h : ∀ n ∈ batch, hasKey store n.public_key = true) :
    insertPhase store batch = (store, 0) := by
  induction batch with
  | nil => rfl
  | cons n rest ih =>
    have h1 : insertOrIgnore store n = (store, 0) := by
      simp [insertOrIgnore, h n (List.mem_cons_self n rest)]
    show (let s := insertOrIgnore store n
          let r := insertPhase s.1 rest
          (r.1, s.2 + r.2)) = (store, 0)
    rw [h1]
    simp [ih (fun m hm => h m (List.mem_cons_of_mem n hm))]

/-- The update loop acts on the table as the pointwise map of `applyBatch`. -/
theorem updatePhase_fst (batch : List Node) :
    ∀ store, (updatePhase store batch).1 = store.map (applyBatch batch) := by
  induction batch with
  | nil =>
    intro store
    show store = store.map (applyBatch [])
    exact (by rw [List.map_congr_left (f := applyBatch []) (g := id) (fun r _ => rfl),
      List.map_id] : store.map (applyBatch []) = store).symm
  | cons n rest ih =>
    intro store
    show (updatePhase (store.map (updRow n)) rest).1 = _
    rw [ih, List.map_map]
    rfl

/-- When no batch record changes any stored row, the update loop is a
no-op with `updated_count = 0`. -/
theorem updatePhase_noop (store batch : List Node)
    (h : ∀ n ∈ batch, ∀ r ∈ store, updHits n r = false) :
    updatePhase store batch = (store, 0) := by
  induction batch with
  | nil => rfl
  | cons n rest ih =>
    have hmap : store.map (updRow n) = store := by
      rw [List.map_congr_left (g := id)
        (fun r hr => by simp [updRow, h n (List.mem_cons_self n rest) r hr]), List.map_id]
    have hcount : store.countP (updHits n) = 0 :=
      List.countP_eq_zero.mpr (fun r hr => by
        simp [h n (List.mem_cons_self n rest) r hr])
    show (let s := updateIfChanged store n
          let r := updatePhase s.1 rest
          (r.1, s.2 + r.2)) = (store, 0)
    rw [show updateIfChanged store n = (store, 0) from by
      simp [updateIfChanged, hmap, hcount]]
    simp [ih (fun m hm => h m (List.mem_cons_of_mem n hm))]

/-- Key presence is invariant under the update loop. -/
theorem hasKey_map_applyBatch (batch : List Node) (k : String) :
    ∀ store, hasKey (store.map (applyBatch batch)) k = hasKey store k := by
  intro store
  induction store with
  | nil => rfl
  | cons r rest ih =>
    simp only [hasKey, List.map_cons, List.any_cons] at ih ⊢
    rw [applyBatch_public_key, ih]

/-- C1: reconciling a batch with pairwise-distinct `public_key`s a second
time inserts nothing, updates nothing, and leaves the table exactly as the
first call left it. -/
theorem upsert_idempotent (store batch : List Node)
    (hnd : (batch.map (fun n => n.public_key)).Nodup) :
    store_nodes (store_nodes store batch).1 batch = ((store_nodes store batch).1, 0, 0) := by
  have hs1 : (store_nodes store batch).1
      = ((insertPhase store batch).1).map (applyBatch batch) :=
    updatePhase_fst batch (insertPhase store batch).1
  have hpresent : ∀ n ∈ batch,
      hasKey (store_nodes store batch).1 n.public_key = true := by
    intro n hn
    rw [hs1, hasKey_map_applyBatch]
    exact insertPhase_hasKey batch store n hn
  have hvalues : ∀ n ∈ batch, ∀ r ∈ (store_nodes store batch).1,
      updHits n r = false := by
    intro n hn r hr
    rw [hs1] at hr
    obtain ⟨r0, hr0, rfl⟩ := List.mem_map.mp hr
    by_cases hpk : r0.public_key = n.public_key
    · obtain ⟨ha, hc⟩ := applyBatch_sets hnd hn hpk
      simp [updHits, ha, hc]
    · have : (applyBatch batch r0).public_key ≠ n.public_key := by
        rw [applyBatch_public_key]
        exact hpk
      simp [updHits, this]
  show ((updatePhase (insertPhase (store_nodes store batch).1 batch).1 batch).1,
        (insertPhase (store_nodes store batch).1 batch).2,
        (updatePhase (insertPhase (store_nodes store batch).1 batch).1 batch).2)
      = ((store_nodes store batch).1, 0, 0)
  rw [insertPhase_noop _ _ hpresent]
  show ((updatePhase (store_nodes store batch).1 batch).1, 0,
        (updatePhase (store_nodes store batch).1 batch).2)
      = ((store_nodes store batch).1, 0, 0)
  rw [updatePhase_noop _ _ hvalues]

/-- C1 witness: a fresh table reconciled twice with a one-record batch. -/
theorem upsert_idempotent_witness :
    ((([⟨"a", "A", 10, 100⟩] : List Node).map (fun n => n.public_key)).Nodup) ∧
    store_nodes (store_nodes [] [⟨"a", "A", 10, 100⟩]).1 [⟨"a", "A", 10, 100⟩]
      = ([⟨"a", "A", 10, 100⟩], 0, 0) :=
  ⟨by decide, upsert_idempotent [] [⟨"a", "A", 10, 100⟩] (by decide)⟩

/-- C7: `store_nodes` never deletes — every key present before the call is
present after it — and every row whose key does not occur in the batch is
completely unchanged (`alias`, `capacity` and `first_seen` included). -/
theorem upsert_never_deletes (store batch : List Node) :
    (∀ k, hasKey store k = true → hasKey (store_nodes store batch).1 k = true) ∧
    (store_nodes store batch).1.filter
        (fun r => !(batch.any (fun n => n.public_key == r.public_key)))
      = store.filter
        (fun r => !(batch.any (fun n => n.public_key == r.public_key))) := by
  have hs1 : (store_nodes store batch).1
      = ((insertPhase store batch).1).map (applyBatch batch) :=
    updatePhase_fst batch (insertPhase store batch).1
  obtain ⟨extra, he, hmem⟩ := insertPhase_split batch store
  constructor
  · intro k hk
    rw [hs1, hasKey_map_applyBatch, he]
    simp only [hasKey, List.any_append] at hk ⊢
    rw [hk]
    rfl
  · rw [hs1, he]
    rw [List.filter_map
      (p := fun r => !(batch.any (fun n => n.public_key == r.public_key)))
      (applyBatch batch) (store ++ extra)]
    have hcomp : List.filter
        ((fun r => !(batch.any (fun n => n.public_key == r.public_key)))
          ∘ applyBatch batch) (store ++ extra)
        = List.filter
          (fun r => !(batch.any (fun n => n.public_key == r.public_key)))
          (store ++ extra) := by
      apply List.filter_congr
      intro r _
      simp only [Function.comp_apply, applyBatch_public_key]
    rw [hcomp, List.filter_append]
    have hextra : List.filter
        (fun r => !(batch.any (fun n => n.public_key == r.public_key))) extra = [] := by
      rw [List.filter_eq_nil_iff]
      intro r hr
      have : batch.any (fun n => n.public_key == r.public_key) = true :=
        List.any_eq_true.mpr ⟨r, hmem r hr, by simp⟩
      simp [this]
    rw [hextra, List.append_nil]
    have : ∀ r ∈ List.filter
        (fun r => !(batch.any (fun n => n.public_key == r.public_key))) store,
        applyBatch batch r = r := by
      intro r hr
      obtain ⟨-, hp⟩ := List.mem_filter.mp hr
      apply applyBatch_of_not_mem
      intro n hn
      simp only [Bool.not_eq_true', List.any_eq_false] at hp
      simpa using hp n hn
    rw [List.map_congr_left (g := id) (fun r hr => this r hr), List.map_id]

/-- C7 witness: a one-row table reconciled against a disjoint batch — the
old key survives and its row is untouched. -/
theorem upsert_never_deletes_witness :
    hasKey [⟨"a", "A", 10, 100⟩] "a" = true ∧
    hasKey (store_nodes [⟨"a", "A", 10, 100⟩] [⟨"b", "B", 20, 200⟩]).1 "a" = true ∧
    (store_nodes [⟨"a", "A", 10, 100⟩] [⟨"b", "B", 20, 200⟩]).1.filter
        (fun r => !(([⟨"b", "B", 20, 200⟩] : List Node).any
          (fun n => n.public_key == r.public_key)))
      = [⟨"a", "A", 10, 100⟩] :=
  ⟨by decide,
   (upsert_never_deletes [⟨"a", "A", 10, 100⟩] [⟨"b", "B", 20, 200⟩]).1 "a" (by decide),
   by decide⟩

/-! ### Migration lemmas -/

/-- When every batch key is fresh and the batch keys are pairwise
distinct, the insert loop appends the whole batch and counts every row. -/
theorem insertPhase_all_new (batch : List Node) :
    ∀ store, (batch.map (fun n => n.public_key)).Nodup →
    (∀ n ∈ batch, hasKey store n.public_key = false) →
    insertPhase store batch = (store ++ batch, batch.length) := by
  induction batch with
  | nil => intro store _ _; simp [insertPhase]
  | cons n rest ih =>
    intro store hnd hfresh
    rw [List.map_cons, List.nodup_cons] at hnd
    obtain ⟨hn, hrest⟩ := hnd
    have h1 : insertOrIgnore store n = (store ++ [n], 1) := by
      simp [insertOrIgnore, hfresh n (List.mem_cons_self n rest)]
    have hfresh' : ∀ m ∈ rest, hasKey (store ++ [n]) m.public_key = false := by
      intro m hm
      simp only [hasKey, List.any_append, List.any_cons, List.any_nil]
      have h2 : hasKey store m.public_key = false :=
        hfresh m (List.mem_cons_of_mem n hm)
      have h3 : (n.public_key == m.public_key) = false := by
        simp only [beq_eq_false_iff_ne, ne_eq]
        intro he
        exact hn (he ▸ List.mem_map_of_mem (fun y => y.public_key) hm)
      simp only [hasKey] at h2
      rw [h2, h3]
      rfl
    show ((insertPhase (insertOrIgnore store n).1 rest).1,
          (insertOrIgnore store n).2 + (insertPhase (insertOrIgnore store n).1 rest).2)
        = (store ++ n :: rest, (n :: rest).length)
    rw [h1]
    show ((insertPhase (store ++ [n]) rest).1, 1 + (insertPhase (store ++ [n]) rest).2)
        = (store ++ n :: rest, (n :: rest).length)
    rw [ih (store ++ [n]) hrest hfresh']
    simp [List.append_assoc, Nat.add_comm]

/-- C2 counterexample: a legacy table whose two rows share one
`public_key` (the legacy schema keyed rows by a surrogate id, so this is
representable); the defensive `INSERT OR IGNORE` drops the second row, so
migration does not preserve the row count. -/
theorem migration_dup_key_counterexample :
    (run_migration [⟨"a", "x", 1, "1970-01-01T00:00:00Z"⟩,
                    ⟨"a", "y", 2, "1970-01-01T00:00:01Z"⟩]).length = 1 ∧
    ([⟨"a", "x", 1, "1970-01-01T00:00:00Z"⟩,
      ⟨"a", "y", 2, "1970-01-01T00:00:01Z"⟩] : List OldNode).length = 2 := by
  refine ⟨by decide, by decide⟩

/-- C2 (amended with pairwise-distinct `public_key`s): migrating a legacy
table preserves the row count, every row keeps its `public_key`, `alias`
and `capacity`, every textual timestamp that parses as RFC3339 becomes
exactly its epoch second, and every one that does not parse becomes 0. -/
theorem migration_preserves_rows (old : List OldNode)
    (hnd : (old.map (fun o => o.public_key)).Nodup) :
    run_migration old = old.map migrateRow ∧
    (run_migration old).length = old.length ∧
    (∀ o ∈ old, ∀ t, parseRFC3339 o.first_seen = some t →
      (⟨o.public_key, o.«alias», o.capacity, t⟩ : Node) ∈ run_migration old) ∧
    (∀ o ∈ old, parseRFC3339 o.first_seen = none →
      (⟨o.public_key, o.«alias», o.capacity, 0⟩ : Node) ∈ run_migration old) := by
  have hmain : run_migration old = old.map migrateRow := by
    show (insertPhase [] (old.map migrateRow)).1 = old.map migrateRow
    rw [insertPhase_all_new (old.map migrateRow) []
      (by rw [List.map_map]; exact hnd)
      (fun n _ => rfl)]
    rfl
  refine ⟨hmain, by rw [hmain, List.length_map], ?_, ?_⟩
  · intro o ho t hparse
    rw [hmain]
    have : (⟨o.public_key, o.«alias», o.capacity, t⟩ : Node) = migrateRow o := by
      simp [migrateRow, hparse]
    rw [this]
    exact List.mem_map_of_mem migrateRow ho
  · intro o ho hparse
    rw [hmain]
    have : (⟨o.public_key, o.«alias», o.capacity, 0⟩ : Node) = migrateRow o := by
      simp [migrateRow, hparse]
    rw [this]
    exact List.mem_map_of_mem migrateRow ho

/-- C2 witness: a two-row legacy table with one convertible timestamp
(1700000000) and one garbage timestamp (defaulted to 0). -/
theorem migration_preserves_rows_witness :
    ((([⟨"a", "A", 1, "2023-11-14T22:13:20Z"⟩,
        ⟨"b", "B", 2, "garbage"⟩] : List OldNode).map (fun o => o.public_key)).Nodup) ∧
    run_migration [⟨"a", "A", 1, "2023-11-14T22:13:20Z"⟩, ⟨"b", "B", 2, "garbage"⟩]
      = [⟨"a", "A", 1, 1700000000⟩, ⟨"b", "B", 2, 0⟩] ∧
    (run_migration [⟨"a", "A", 1, "2023-11-14T22:13:20Z"⟩,
                    ⟨"b", "B", 2, "garbage"⟩]).length = 2 :=
  ⟨by decide,
   by
    rw [(migration_preserves_rows
      [⟨"a", "A", 1, "2023-11-14T22:13:20Z"⟩, ⟨"b", "B", 2, "garbage"⟩] (by decide)).1]
    decide,
   (migration_preserves_rows
      [⟨"a", "A", 1, "2023-11-14T22:13:20Z"⟩, ⟨"b", "B", 2, "garbage"⟩] (by decide)).2.1⟩

/-! ### Migration rollback -/

/-- A faulted run with at least one statement remaining always errors. -/
theorem runStepsFailAfter_error (steps : List MigStep) :
    ∀ (db : DbState) (k : Nat), k < steps.length →
    runStepsFailAfter db steps k = .error () := by
  induction steps with
  | nil => intro db k hk; cases hk
  | cons s rest ih =>
    intro db k hk
    match k with
    | 0 => rfl
    | k + 1 =>
      show (match runStep db s with
            | .ok db' => runStepsFailAfter db' rest k
            | .error e => .error e) = .error ()
      cases hstep : runStep db s with
      | ok db' => exact ih db' k (by simpa using hk)
      | error e => cases e; rfl

/-- C3: if any statement of the migration — the rename, the table
creation, any per-row copy, or the drop of the temporary table — fails
before the final commit, the transaction rolls back and the committed
store still holds the original `nodes` table with all its rows. -/
theorem migration_rollback (rows : List SqlRow) (k : Nat)
    (hk : k < (migrationSteps rows.length).length) :
    migrateFailingAt rows k = legacyDb rows ∧
    getTable (migrateFailingAt rows k) "nodes" = some rows := by
  have herr : runStepsFailAfter (legacyDb rows) (migrationSteps rows.length) k
      = .error () :=
    runStepsFailAfter_error (migrationSteps rows.length) (legacyDb rows) k hk
  have h1 : migrateFailingAt rows k = legacyDb rows := by
    show withTxFailAfter (legacyDb rows) (migrationSteps rows.length) k = legacyDb rows
    unfold withTxFailAfter
    rw [herr]
  refine ⟨h1, ?_⟩
  rw [h1]
  simp [getTable, legacyDb]

/-- C3 witness: a one-row legacy table, failing at the first copy
statement (position 2, after the rename and the create). -/
theorem migration_rollback_witness :
    2 < (migrationSteps ([⟨"a", "A", 1, SqlValue.text "garbage"⟩] : List SqlRow).length).length ∧
    migrateFailingAt [⟨"a", "A", 1, SqlValue.text "garbage"⟩] 2
      = legacyDb [⟨"a", "A", 1, SqlValue.text "garbage"⟩] :=
  ⟨by decide, (migration_rollback [⟨"a", "A", 1, SqlValue.text "garbage"⟩] 2 (by decide)).1⟩

end LnMirror
